import Mathlib

/-!
Shallow embedding of `src/find_growth_directories.py`.

The program reads two "bdb" size reports (old and new), parses each into a
dict mapping a directory path to a floating-point size, and prints every
directory of the new report whose size grew, with the growth formatted by
Python's `'{:.2}'.format`.

Modelling choices:
* a file's contents is a list of lines (`readlines` output);
* Python `float` values are modelled as exact rationals `ℚ` (all sizes in
  a bdb report are plain decimals, which doubles and rationals both read
  exactly at the scales the claims use); `float(tok)` is a partial parse
  `pyFloat? : String → Option ℚ` covering the finite decimal grammar
  (sign, digits, point, exponent) — `inf`/`nan` have no rational value;
* a Python `dict` is an insertion-ordered association list: updating an
  existing key replaces its value in place, a fresh key is appended;
* fatal exceptions (IndexError of `s[-1]` on an empty line, ValueError of
  `float`, unreadable file) are `Option` failures; an uncaught exception
  terminates CPython with exit code 1 and no further stdout.
-/

set_option autoImplicit false

namespace Bdb

/-- ASCII whitespace recognised by Python `str.split()` with no separator
(space, tab, newline, vertical tab, form feed, carriage return). -/
def isPySpace (c : Char) : Bool :=
  c = ' ' || c = '\t' || c = '\n' || c = Char.ofNat 11 || c = Char.ofNat 12 || c = '\r'

/-- Worker for `pySplit`: walks the characters, accumulating the current
token in reverse. -/
def pySplitAux : List Char → List Char → List String
  | [], [] => []
  | [], cur => [String.mk cur.reverse]
  | c :: rest, cur =>
    if isPySpace c then
      match cur with
      | [] => pySplitAux rest []
      | _ => String.mk cur.reverse :: pySplitAux rest []
    else pySplitAux rest (c :: cur)

/-- Python `s.split()`: split on runs of whitespace, discarding leading and
trailing whitespace; an empty or all-whitespace string yields `[]`. -/
def pySplit (s : String) : List String :=
  pySplitAux s.toList []

/-- Python `' '.join(l)`. -/
def joinSpace : List String → String
  | [] => ""
  | [s] => s
  | s :: rest => s ++ " " ++ joinSpace rest

/-- Value of a list of decimal digit characters (most significant first). -/
def digitsVal (cs : List Char) : Nat :=
  cs.foldl (fun a c => a * 10 + (c.toNat - 48)) 0

/-- All characters are ASCII decimal digits. -/
def allDigits (cs : List Char) : Bool :=
  cs.all (·.isDigit)

/-- Ten to the `n`-th power as a rational. -/
def qpow10n : Nat → ℚ
  | 0 => 1
  | n + 1 => qpow10n n * 10

/-- Ten to the `e`-th power as a rational, for an integer exponent. -/
def qpow10 : ℤ → ℚ
  | .ofNat n => qpow10n n
  | .negSucc n => 1 / qpow10n (n + 1)

/-- Strip one optional leading sign; returns (isNegative, rest). -/
def stripSign : List Char → Bool × List Char
  | '-' :: rest => (true, rest)
  | '+' :: rest => (false, rest)
  | cs => (false, cs)

/-- Parse the unsigned mantissa `digits [. digits] | . digits` of a Python
float literal, as a rational. -/
def parseMantissa (cs : List Char) : Option ℚ :=
  let ip := cs.takeWhile (·.isDigit)
  let rest := cs.dropWhile (·.isDigit)
  match rest with
  | [] => if ip.isEmpty then none else some (digitsVal ip)
  | '.' :: fp =>
    if allDigits fp && !(ip.isEmpty && fp.isEmpty) then
      some ((digitsVal ip : ℚ) + (digitsVal fp : ℚ) / qpow10n fp.length)
    else none
  | _ => none

/-- Parse the exponent part (after `e`/`E`): `[sign] digits`. -/
def parseExp (cs : List Char) : Option ℤ :=
  let (neg, ds) := stripSign cs
  if ds.isEmpty || !allDigits ds then none
  else some (if neg then -(digitsVal ds : ℤ) else (digitsVal ds : ℤ))

/-- Split a character list at the first `e`/`E`, if any. -/
def splitAtExpChar (cs : List Char) : List Char × Option (List Char) :=
  let m := cs.takeWhile (fun c => !(c = 'e' || c = 'E'))
  match cs.dropWhile (fun c => !(c = 'e' || c = 'E')) with
  | [] => (m, none)
  | _ :: rest => (m, some rest)

/-- Python `float(s)` on the finite decimal grammar, as an exact rational:
`[sign] (digits [. digits] | . digits) [(e|E) [sign] digits]`.
Returns `none` where CPython raises `ValueError` (and on the non-finite
spellings `inf`/`nan`, which have no rational counterpart). -/
def pyFloat? (s : String) : Option ℚ :=
  let (neg, cs) := stripSign s.toList
  let (mcs, ecs) := splitAtExpChar cs
  match parseMantissa mcs with
  | none => none
  | some m =>
    match ecs with
    | none => some (if neg then -m else m)
    | some es =>
      match parseExp es with
      | none => none
      | some e =>
        let v := m * qpow10 e
        some (if neg then -v else v)

/-- Decimal digits of `n`, most significant first (fuel-based so that it
reduces in the kernel). -/
def natToDigitsAux : Nat → Nat → List Char
  | 0, _ => []
  | fuel + 1, n => if n = 0 then [] else natToDigitsAux fuel (n / 10) ++ [Char.ofNat (48 + n % 10)]

/-- Decimal digits of `n`, most significant first. -/
def natToDigits (n : Nat) : List Char :=
  if n = 0 then ['0'] else natToDigitsAux (n + 1) n

/-- Worker for `log10floor` (fuel-based). -/
def log10Aux : Nat → Nat → Nat
  | 0, _ => 0
  | fuel + 1, n => if n < 10 then 0 else log10Aux fuel (n / 10) + 1

/-- Floor of the base-10 logarithm of `n`, for `n ≥ 1` (number of decimal
digits minus one). -/
def log10floor (n : Nat) : Nat :=
  log10Aux n n

/-- The decimal exponent of a positive rational `q`: the unique `e : ℤ`
with `10 ^ e ≤ q < 10 ^ (e + 1)`. -/
def decExp (q : ℚ) : ℤ :=
  if 1 ≤ q then (log10floor (⌊q⌋).toNat : ℤ)
  else -((log10floor (⌈q⁻¹⌉ - 1).toNat + 1 : ℕ) : ℤ)

/-- Round to the nearest integer, ties to the even integer — the rounding
CPython's float-to-decimal conversion applies. -/
def roundHalfEven (q : ℚ) : ℤ :=
  let f := ⌊q⌋
  let r := q - (f : ℚ)
  if r < 1 / 2 then f
  else if 1 / 2 < r then f + 1
  else if f % 2 = 0 then f else f + 1

/-- Natural number as decimal digits, left-padded with `0` to width 2
(Python's exponent field). -/
def pad2 (n : Nat) : String :=
  if n < 10 then String.mk ('0' :: natToDigits n) else String.mk (natToDigits n)

/-- Python `'{:.2}'.format` on a positive value: round to 2 significant digits
`d1 d2` at decimal exponent `e`; if `-4 ≤ e < 1` use fixed-point notation,
otherwise scientific notation with trailing zeros stripped. The empty
presentation type must keep a digit after the point, which lowers the
fixed-point threshold of the `g` style from the precision 2 to 1: a value
rounding to exponent 1 (such as 15.0) prints as `1.5e+01`, not `15`. -/
def formatDot2Pos (q : ℚ) : String :=
  let e0 := decExp q
  let s0 := roundHalfEven (q / qpow10 (e0 - 1))
  let sig := if s0 = 100 then 10 else s0
  let e := if s0 = 100 then e0 + 1 else e0
  let d1 := Char.ofNat (48 + (sig.toNat / 10) % 10)
  let d2v := sig.toNat % 10
  let d2 := Char.ofNat (48 + d2v)
  if -4 ≤ e ∧ e < 1 then
    if e = 0 then String.mk [d1, '.', d2]
    else
      "0." ++ String.mk (List.replicate (-e - 1).toNat '0') ++
        (if d2v = 0 then String.mk [d1] else String.mk [d1, d2])
  else
    (if d2v = 0 then String.mk [d1] else String.mk [d1, '.', d2]) ++
      "e" ++ (if e < 0 then "-" else "+") ++ pad2 e.natAbs

/-- Python `'{:.2}'.format(x)` for a float `x`: precision 2, empty
presentation type (2 significant digits, general style). -/
def formatDot2 (q : ℚ) : String :=
  if q = 0 then "0.0"
  else if q < 0 then "-" ++ formatDot2Pos (-q)
  else formatDot2Pos q

/-- Python `dict` lookup with default: `d.get(k, dflt)`. -/
def dictGet (d : List (String × ℚ)) (k : String) (dflt : ℚ) : ℚ :=
  match d.find? (fun p => p.1 == k) with
  | some p => p.2
  | none => dflt

/-- Python `dict` insertion `d[k] = v` on an insertion-ordered dict: an
existing key keeps its position and gets the new value, a fresh key is
appended at the end. -/
def dictInsert (d : List (String × ℚ)) (k : String) (v : ℚ) : List (String × ℚ) :=
  if d.any (fun p => p.1 == k) then
    d.map (fun p => if p.1 == k then (p.1, v) else p)
  else d ++ [(k, v)]

/-- One line of a report, as the comprehension body sees it:
`s = line.split()`, key `' '.join(s[:-1])`, value `float(s[-1])`.
`none` models the uncaught IndexError (`s[-1]` of an empty list) or
ValueError (`float` of a non-numeric token). -/
def parseLine (line : String) : Option (String × ℚ) :=
  let toks := pySplit line
  match toks.getLast? with
  | none => none
  | some t => (pyFloat? t).map (fun v => (joinSpace toks.dropLast, v))

/-- Insert a list of key/value pairs in order into a dict. -/
def insertAll (d : List (String × ℚ)) (ps : List (String × ℚ)) : List (String × ℚ) :=
  ps.foldl (fun d p => dictInsert d p.1 p.2) d

/-- One step of the comprehension fold behind `into_dict`: parse a line
and insert its pair, propagating an earlier failure. -/
def into_dictStep (acc : Option (List (String × ℚ))) (line : String) :
    Option (List (String × ℚ)) :=
  acc.bind fun d => (parseLine line).map fun p => dictInsert d p.1 p.2

/-- The function `into_dict`: parse the lines of a report into a dict,
line by line in file order. `none` models an uncaught exception while
parsing any line. -/
def into_dict (lines : List String) : Option (List (String × ℚ)) :=
  lines.foldl into_dictStep (some [])

/-- The line printed for a grown directory: `'{} {:.2}'.format(dir, growth)`. -/
def formatGrowthLine (dir : String) (growth : ℚ) : String :=
  dir ++ " " ++ formatDot2 growth

/-- The main loop's stdout: for each `(dir, size)` of `newer` in dict
order, print the formatted line when `size - older.get(dir, 0)` is
positive. -/
def growthLines (older newer : List (String × ℚ)) : List String :=
  newer.filterMap fun p =>
    let growth := p.2 - dictGet older p.1 0
    if 0 < growth then some (formatGrowthLine p.1 growth) else none

/-- Observable outcome of one run: stdout lines, stderr lines, exit code. -/
structure ExecResult where
  stdout : List String
  stderr : List String
  exitCode : Nat
deriving DecidableEq

/-- The usage message written to stderr on a wrong argument count. -/
def usageMsg : String :=
  "expected two file arguments: old new"

/-- Stand-in for the traceback CPython prints for an uncaught exception;
its text is interpreter detail, only its stream and the exit code matter. -/
def tracebackMsg : String :=
  "Traceback (most recent call last)"

/-- The whole script. `argv` is `sys.argv` (script name included), `fs`
maps a file name to its lines (`none`: unreadable file). If
`len(sys.argv) != 3` the script writes the usage message to stderr and
exits 1; otherwise it builds `older` and `newer` from `sys.argv[-2:]`
(an uncaught exception ends the run with exit code 1 and empty stdout)
and then prints the growth lines, exiting 0. -/
def runMain (argv : List String) (fs : String → Option (List String)) : ExecResult :=
  match argv with
  | [_, oldFile, newFile] =>
    match (fs oldFile).bind into_dict, (fs newFile).bind into_dict with
    | some older, some newer => ⟨growthLines older newer, [], 0⟩
    | _, _ => ⟨[], [tracebackMsg], 1⟩
  | _ => ⟨[], [usageMsg], 1⟩

/-- The key/value pairs of a report's lines in file order, before any
dict collapsing (`none` as soon as one line fails to parse). This is the
sequencing view of the same comprehension `into_dict` folds over. -/
def parseLines : List String → Option (List (String × ℚ))
  | [] => some []
  | l :: ls => (parseLine l).bind fun p => (parseLines ls).map fun ps => p :: ps

/-- The Growth Comparator contract as the spec words it: for each
`(dir, size)` of `newer` in order, the pair `(dir, size - older.get(dir, 0))`,
kept only when the growth is strictly positive. Stated separately from
`growthLines` (the code's fused loop) so the two can be compared. -/
def growthEntriesSpec (older newer : List (String × ℚ)) : List (String × ℚ) :=
  (newer.map fun p => (p.1, p.2 - dictGet older p.1 0)).filter fun p => 0 < p.2

/-- First-occurrence deduplication of a list of keys, used to state the
order of an insertion-ordered dict's keys: a key already seen is dropped,
a fresh key is kept and remembered. -/
def dedupFirst (seen : List String) : List String → List String
  | [] => []
  | k :: ks => if k ∈ seen then dedupFirst seen ks else k :: dedupFirst (k :: seen) ks

example : pySplit "my  dir 10" = ["my", "dir", "10"] := by decide
example : pySplit "  " = [] := by decide
example : joinSpace ["my", "dir"] = "my dir" := by decide
example : pyFloat? "10" = some 10 := by decide
example : pyFloat? "12.5" = some (25 / 2) := by with_unfolding_all decide
example : pyFloat? "-1.5e2" = some (-150) := by with_unfolding_all decide
example : pyFloat? ".5" = some (1 / 2) := by with_unfolding_all decide
example : pyFloat? "abc" = none := by decide
example : pyFloat? "" = none := by decide
example : pyFloat? "1e" = none := by decide

example : formatDot2 5 = "5.0" := by with_unfolding_all decide
example : formatDot2 123 = "1.2e+02" := by with_unfolding_all decide
example : formatDot2 (1 / 400) = "0.0025" := by with_unfolding_all decide
example : formatDot2 15 = "1.5e+01" := by with_unfolding_all decide
example : formatDot2 10 = "1e+01" := by with_unfolding_all decide
example : formatDot2 50 = "5e+01" := by with_unfolding_all decide
example : formatDot2 (3 / 10) = "0.3" := by with_unfolding_all decide
example : formatDot2 100 = "1e+02" := by with_unfolding_all decide
example : formatDot2 (3 / 200000) = "1.5e-05" := by with_unfolding_all decide
example : growthLines [("x", 10)] [("x", 15)] = ["x 5.0"] := by with_unfolding_all decide
example : into_dict ["b 5", "a 5", "b 7"] = some [("b", 7), ("a", 5)] := by
  with_unfolding_all decide
example : parseLine "my  dir 10" = some ("my dir", 10) := by with_unfolding_all decide
example : parseLine "42" = some ("", 42) := by with_unfolding_all decide
example : parseLine "" = none := by decide

/-! Helper lemmas shared by the claim theorems. -/

theorem foldl_into_dictStep_none : ∀ lines : List String, lines.foldl into_dictStep none = none
  | [] => rfl
  | _ :: ls => foldl_into_dictStep_none ls

theorem into_dict_eq_none_of_mem {lines : List String} {line : String}
    (hmem : line ∈ lines) (hbad : parseLine line = none) : into_dict lines = none := by
  have aux : ∀ acc, lines.foldl into_dictStep acc = none := by
    induction lines with
    | nil => cases hmem
    | cons l ls ih =>
      intro acc
      rw [List.foldl_cons]
      rcases List.mem_cons.mp hmem with rfl | hmem'
      · have hstep : into_dictStep acc line = none := by
          cases acc <;> simp [into_dictStep, hbad]
        rw [hstep]
        exact foldl_into_dictStep_none ls
      · exact ih hmem' _
  exact aux (some [])

theorem mem_growthLines {older newer : List (String × ℚ)} {line : String}
    (h : line ∈ growthLines older newer) :
    ∃ p ∈ newer, 0 < p.2 - dictGet older p.1 0 ∧
      line = formatGrowthLine p.1 (p.2 - dictGet older p.1 0) := by
  simp only [growthLines, List.mem_filterMap] at h
  obtain ⟨p, hp, hline⟩ := h
  by_cases hpos : 0 < p.2 - dictGet older p.1 0
  · rw [if_pos hpos] at hline
    exact ⟨p, hp, hpos, (Option.some_inj.mp hline).symm⟩
  · rw [if_neg hpos] at hline
    cases hline

/-- C1: for every `(dir, size)` of the newer report in its dict order, the
program emits the line for `growth = size - older.get(dir, 0)` exactly when
the growth is strictly positive — the fused loop equals the spec's
map-then-filter description; spec tests 5 (new-only directory, old entry
read as 0) and 4 (non-positive growth silently omitted) instantiate it. -/
theorem growthLines_eq_spec_entries (older newer : List (String × ℚ)) :
    growthLines older newer =
      (growthEntriesSpec older newer).map (fun p => formatGrowthLine p.1 p.2) ∧
    growthLines [] [("y", 3)] = ["y 3.0"] ∧
    growthLines [("x", 10)] [("x", 8)] = [] := by
  refine ⟨?_, by with_unfolding_all decide, by with_unfolding_all decide⟩
  induction newer with
  | nil => rfl
  | cons p rest ih =>
    simp only [growthLines, growthEntriesSpec] at ih ⊢
    simp only [sub_pos] at ih
    by_cases h : dictGet older p.1 0 < p.2 <;>
      simp [List.filterMap_cons, List.filter_cons, sub_pos, h, ih]

/-- C2: a line whose whitespace-split tokens are `t1 … tn` with `n ≥ 2` and
whose last token reads as the float `v` is parsed to the key made of
`t1 … t(n-1)` rejoined with single spaces, mapped to `v` (so internal
whitespace runs collapse to one space in the key). -/
theorem parseLine_joins_init_tokens (line : String) (ts : List String) (t : String) (v : ℚ)
    (hsplit : pySplit line = ts) (_hlen : 2 ≤ ts.length) (hlast : ts.getLast? = some t)
    (hval : pyFloat? t = some v) :
    parseLine line = some (joinSpace ts.dropLast, v) ∧
    into_dict [line] = some [(joinSpace ts.dropLast, v)] := by
  have hp : parseLine line = some (joinSpace ts.dropLast, v) := by
    simp [parseLine, hsplit, hlast, hval]
  refine ⟨hp, ?_⟩
  simp [into_dict, into_dictStep, hp, dictInsert]

/-- Witness for C2 at the spec's example with a doubled internal space:
the key is `"my dir"`, the value `10`. -/
theorem parseLine_joins_init_tokens_inst :
    parseLine "my  dir 10" = some ("my dir", 10) ∧
    into_dict ["my  dir 10"] = some [("my dir", 10)] := by
  have h := parseLine_joins_init_tokens "my  dir 10" ["my", "dir", "10"] "10" 10
    (by decide) (by decide) (by decide) (by with_unfolding_all decide)
  have hj : joinSpace (["my", "dir", "10"].dropLast) = "my dir" := by decide
  rw [hj] at h
  exact h

/-- C7: a line consisting of exactly one token maps the empty-string key
to that token's float value; no error is raised. -/
theorem single_token_line_empty_key (line t : String) (v : ℚ)
    (hs : pySplit line = [t]) (hv : pyFloat? t = some v) :
    parseLine line = some ("", v) := by
  have hone : ([t] : List String).getLast? = some t := rfl
  have hdrop : ([t] : List String).dropLast = [] := rfl
  simp [parseLine, hs, hone, hdrop, hv, joinSpace]

/-- Witness for C7: the one-token line `"42"` parses to key `""`, value 42. -/
theorem single_token_line_empty_key_inst : parseLine "42" = some ("", 42) :=
  single_token_line_empty_key "42" "42" 42 (by decide) (by with_unfolding_all decide)

/-- C3: every emitted line renders its growth through `formatDot2`, the
model of Python's `'{:.2}'` — 2 significant digits in general style; the
conjuncts pin the style down concretely: not fixed 2-decimal-place
formatting (123 prints as `1.2e+02`, not `123.00`; 0.0025 prints in full,
not as `0.00`; 15 prints as `1.5e+01`, scientific already at decimal
exponent 1), and for old size 10 and new size 15 of `"x"` the output line
is exactly `"x 5.0"`. -/
theorem emitted_growth_two_sig_digits (older newer : List (String × ℚ)) (line : String)
    (h : line ∈ growthLines older newer) :
    (∃ d : String, ∃ g : ℚ, 0 < g ∧ line = d ++ " " ++ formatDot2 g) ∧
    formatDot2 5 = "5.0" ∧ formatDot2 123 = "1.2e+02" ∧ formatDot2 15 = "1.5e+01" ∧
    formatDot2 (1 / 400) = "0.0025" ∧
    growthLines [("x", 10)] [("x", 15)] = ["x 5.0"] := by
  obtain ⟨p, _, hpos, rfl⟩ := mem_growthLines h
  exact ⟨⟨p.1, p.2 - dictGet older p.1 0, hpos, rfl⟩,
    by with_unfolding_all decide, by with_unfolding_all decide,
    by with_unfolding_all decide, by with_unfolding_all decide,
    by with_unfolding_all decide⟩

/-- Witness for C3 at the spec's test 3. -/
theorem emitted_growth_two_sig_digits_inst :
    (∃ d : String, ∃ g : ℚ, 0 < g ∧ "x 5.0" = d ++ " " ++ formatDot2 g) ∧
    formatDot2 5 = "5.0" ∧ formatDot2 123 = "1.2e+02" ∧ formatDot2 15 = "1.5e+01" ∧
    formatDot2 (1 / 400) = "0.0025" ∧
    growthLines [("x", 10)] [("x", 15)] = ["x 5.0"] :=
  emitted_growth_two_sig_digits [("x", 10)] [("x", 15)] "x 5.0"
    (by with_unfolding_all decide)

/-- C4: every output line is produced for a directory key of the newer
report, so a key present only in the older report never yields a line;
the last conjunct is the spec's test 6 (old-only `"z"`, empty output). -/
theorem output_only_for_newer_keys (older newer : List (String × ℚ)) (line : String)
    (h : line ∈ growthLines older newer) :
    (∃ d g, d ∈ newer.map Prod.fst ∧ 0 < g ∧ line = formatGrowthLine d g) ∧
    growthLines [("z", 5)] [] = [] := by
  obtain ⟨p, hp, hpos, rfl⟩ := mem_growthLines h
  exact ⟨⟨p.1, p.2 - dictGet older p.1 0, List.mem_map_of_mem _ hp, hpos, rfl⟩, rfl⟩

/-- Witness for C4: the single line of a one-growth run originates from
the newer report's only key. -/
theorem output_only_for_newer_keys_inst :
    (∃ d g, d ∈ ([("y", (7 : ℚ))].map Prod.fst) ∧ 0 < g ∧ "y 7.0" = formatGrowthLine d g) ∧
    growthLines [("z", 5)] [] = [] :=
  output_only_for_newer_keys [("z", 5)] [("y", 7)] "y 7.0" (by with_unfolding_all decide)

/-- C5: a run whose argument vector does not hold exactly two positional
arguments (that is, `sys.argv` is not of length 3, script name included)
writes `"expected two file arguments: old new"` to stderr, exits with
code 1 and prints nothing; with exactly two arguments and no error the
run exits 0 after printing the growth lines. -/
theorem arg_count_contract (argv : List String) (fs : String → Option (List String)) :
    (argv.length ≠ 3 → runMain argv fs = ⟨[], [usageMsg], 1⟩) ∧
    (∀ a oldF newF older newer, argv = [a, oldF, newF] →
      (fs oldF).bind into_dict = some older → (fs newF).bind into_dict = some newer →
      runMain argv fs = ⟨growthLines older newer, [], 0⟩) := by
  constructor
  · intro hlen
    rcases argv with _ | ⟨a, _ | ⟨b, _ | ⟨c, _ | ⟨d, rest⟩⟩⟩⟩
    · rfl
    · rfl
    · rfl
    · exact absurd rfl hlen
    · rfl
  · rintro a oldF newF older newer rfl h1 h2
    simp [runMain, h1, h2]

/-- Witness for C5: zero arguments give the usage error; two readable
one-line reports give exit code 0 and the growth line. -/
theorem arg_count_contract_inst :
    runMain ["find_growth_directories.py"] (fun _ => none) = ⟨[], [usageMsg], 1⟩ ∧
    runMain ["find_growth_directories.py", "old.txt", "new.txt"]
      (fun f => if f = "old.txt" then some ["x 10"] else some ["x 15"]) =
      ⟨["x 5.0"], [], 0⟩ := by
  constructor
  · exact (arg_count_contract ["find_growth_directories.py"] (fun _ => none)).1 (by decide)
  · have h := (arg_count_contract ["find_growth_directories.py", "old.txt", "new.txt"]
      (fun f => if f = "old.txt" then some ["x 10"] else some ["x 15"])).2
      "find_growth_directories.py" "old.txt" "new.txt" [("x", 10)] [("x", 15)] rfl
      (by with_unfolding_all decide) (by with_unfolding_all decide)
    rw [h]
    with_unfolding_all decide

/-- C6: when the last token of some line of either report is not a float,
or a report file is unreadable, the run terminates with exit code 1 and
writes nothing to stdout — both reports are built before the loop, so no
partial result escapes. -/
theorem fatal_error_no_partial_output (argv : List String)
    (fs : String → Option (List String)) (a oldF newF : String)
    (hargv : argv = [a, oldF, newF])
    (h : fs oldF = none ∨ fs newF = none ∨
      ∃ lines line t, (fs oldF = some lines ∨ fs newF = some lines) ∧ line ∈ lines ∧
        (pySplit line).getLast? = some t ∧ pyFloat? t = none) :
    (runMain argv fs).stdout = [] ∧ (runMain argv fs).exitCode = 1 := by
  subst hargv
  have key : (fs oldF).bind into_dict = none ∨ (fs newF).bind into_dict = none := by
    rcases h with h | h | ⟨lines, line, t, hfile, hmem, hlast, hbad⟩
    · left; rw [h]; rfl
    · right; rw [h]; rfl
    · have hpl : parseLine line = none := by simp [parseLine, hlast, hbad]
      have hid : into_dict lines = none := into_dict_eq_none_of_mem hmem hpl
      rcases hfile with hf | hf
      · left; rw [hf]; simpa using hid
      · right; rw [hf]; simpa using hid
  rcases key with k | k
  · cases h2 : (fs newF).bind into_dict <;> simp [runMain, k, h2]
  · cases h2 : (fs oldF).bind into_dict <;> simp [runMain, k, h2]

/-- Witness for C6: the newer report holds the line `"x abc"`, whose last
token is not a float; the run prints nothing and exits 1. -/
theorem fatal_error_no_partial_output_inst :
    (runMain ["p", "o", "n"]
      (fun f => if f = "n" then some ["x abc"] else some ["x 1"])).stdout = [] ∧
    (runMain ["p", "o", "n"]
      (fun f => if f = "n" then some ["x abc"] else some ["x 1"])).exitCode = 1 :=
  fatal_error_no_partial_output ["p", "o", "n"]
    (fun f => if f = "n" then some ["x abc"] else some ["x 1"]) "p" "o" "n" rfl
    (Or.inr (Or.inr ⟨["x abc"], "x abc", "abc", Or.inr (by decide), by decide,
      by decide, by decide⟩))

/-- C8: a line with zero tokens (empty or whitespace-only) makes the
report's parse fail — `s[-1]` of the empty token list throws — and a run
whose newer report holds such a line ends fatally with empty stdout. -/
theorem empty_line_parse_fatal (lines : List String) (line : String)
    (hmem : line ∈ lines) (hempty : pySplit line = []) :
    into_dict lines = none ∧
    ∀ a oldF newF fs, fs newF = some lines →
      (runMain [a, oldF, newF] fs).stdout = [] ∧ (runMain [a, oldF, newF] fs).exitCode = 1 := by
  have hpl : parseLine line = none := by simp [parseLine, hempty]
  have hid := into_dict_eq_none_of_mem hmem hpl
  refine ⟨hid, ?_⟩
  intro a oldF newF fs hf
  have k : (fs newF).bind into_dict = none := by rw [hf]; simpa using hid
  cases h2 : (fs oldF).bind into_dict <;> simp [runMain, k, h2]

/-- Witness for C8 at the empty line. -/
theorem empty_line_parse_fatal_inst :
    into_dict [""] = none ∧
    (runMain ["p", "o", "n"] (fun _ => some [""])).stdout = [] ∧
    (runMain ["p", "o", "n"] (fun _ => some [""])).exitCode = 1 := by
  have h := empty_line_parse_fatal [""] "" (by decide) (by decide)
  exact ⟨h.1, h.2 "p" "o" "n" (fun _ => some [""]) rfl⟩

/-! Association-list facts about the insertion-ordered dict, for the
duplicate-key and output-order claims. -/

theorem any_key_iff (d : List (String × ℚ)) (k : String) :
    d.any (fun p => p.1 == k) = true ↔ k ∈ d.map Prod.fst := by
  rw [List.any_eq_true]
  constructor
  · rintro ⟨p, hp, hpk⟩
    exact List.mem_map.mpr ⟨p, hp, beq_iff_eq.mp hpk⟩
  · intro hm
    obtain ⟨p, hp, rfl⟩ := List.mem_map.mp hm
    exact ⟨p, hp, beq_iff_eq.mpr rfl⟩

theorem find?_map_replace (d : List (String × ℚ)) (k : String) (v : ℚ)
    (h : d.any (fun p => p.1 == k) = true) :
    (d.map (fun p => if p.1 == k then (p.1, v) else p)).find? (fun p => p.1 == k) =
      some (k, v) := by
  induction d with
  | nil => simp at h
  | cons p rest ih =>
    by_cases hk : p.1 = k
    · simp [List.find?_cons, hk]
    · have hrest : rest.any (fun p => p.1 == k) = true := by
        simpa [List.any_cons, hk] using h
      have ih' := ih hrest
      simp only [beq_iff_eq] at ih'
      simp [List.find?_cons, hk, ih', -List.find?_map]

theorem find?_dictInsert_self (d : List (String × ℚ)) (k : String) (v : ℚ) :
    (dictInsert d k v).find? (fun p => p.1 == k) = some (k, v) := by
  unfold dictInsert
  by_cases h : d.any (fun p => p.1 == k) = true
  · rw [if_pos h]
    exact find?_map_replace d k v h
  · rw [if_neg h]
    have hnone : d.find? (fun p => p.1 == k) = none := by
      rw [List.find?_eq_none]
      intro p hp hcon
      exact h (List.any_eq_true.mpr ⟨p, hp, hcon⟩)
    rw [List.find?_append, hnone]
    simp [List.find?_cons]

theorem find?_dictInsert_ne (d : List (String × ℚ)) (k : String) (v : ℚ) (k' : String)
    (hne : k' ≠ k) :
    (dictInsert d k v).find? (fun p => p.1 == k') = d.find? (fun p => p.1 == k') := by
  unfold dictInsert
  by_cases h : d.any (fun p => p.1 == k) = true
  · rw [if_pos h]
    clear h
    induction d with
    | nil => rfl
    | cons p rest ih =>
      simp only [beq_iff_eq] at ih
      by_cases hk : p.1 = k
      · have hkk' : ¬(k = k') := fun hc => hne hc.symm
        simp [List.find?_cons, hk, hkk', ih, -List.find?_map]
      · by_cases hq : p.1 = k'
        · have hk2 : ¬(k' = k) := fun hc => hk (hq.trans hc)
          simp [List.find?_cons, hq, hk2, -List.find?_map]
        · simp [List.find?_cons, hk, hq, ih, -List.find?_map]
  · rw [if_neg h, List.find?_append]
    have h1 : (([(k, v)] : List (String × ℚ)).find? (fun p => p.1 == k')) = none := by
      have hkk : (k == k') = false := beq_eq_false_iff_ne.mpr (Ne.symm hne)
      simp [List.find?_cons, hkk]
    rw [h1]
    cases d.find? (fun p => p.1 == k') <;> rfl

theorem insertAll_cons (d0 : List (String × ℚ)) (p : String × ℚ) (ps : List (String × ℚ)) :
    insertAll d0 (p :: ps) = insertAll (dictInsert d0 p.1 p.2) ps := rfl

theorem find?_insertAll_value (ps : List (String × ℚ)) (k : String) :
    ∀ d0 : List (String × ℚ),
      ((insertAll d0 ps).find? (fun p => p.1 == k)).map Prod.snd =
        ((ps.reverse.find? (fun p => p.1 == k)).map Prod.snd).or
          ((d0.find? (fun p => p.1 == k)).map Prod.snd) := by
  induction ps with
  | nil => intro d0; simp [insertAll]
  | cons p rest ih =>
    intro d0
    rw [insertAll_cons, ih]
    rw [List.reverse_cons, List.find?_append]
    cases hfind : rest.reverse.find? (fun q => q.1 == k) with
    | some q => simp
    | none =>
      simp only [Option.none_or]
      by_cases hp : (p.1 == k) = true
      · have hk : p.1 = k := by simpa using hp
        rw [← hk]
        rw [find?_dictInsert_self]
        simp [List.find?_cons]
      · have hk : k ≠ p.1 := fun hc => hp (by simp [hc])
        rw [find?_dictInsert_ne d0 p.1 p.2 k hk]
        simp [List.find?_cons, hp]

theorem keys_dictInsert (d : List (String × ℚ)) (k : String) (v : ℚ) :
    (dictInsert d k v).map Prod.fst =
      if d.any (fun p => p.1 == k) = true then d.map Prod.fst
      else d.map Prod.fst ++ [k] := by
  unfold dictInsert
  by_cases h : d.any (fun p => p.1 == k) = true
  · rw [if_pos h, if_pos h, List.map_map]
    refine List.map_congr_left ?_
    intro p _
    by_cases hp : p.1 = k <;> simp [hp]
  · rw [if_neg h, if_neg h, List.map_append]
    rfl

theorem nodup_keys_insertAll (ps : List (String × ℚ)) :
    ∀ d0 : List (String × ℚ), (d0.map Prod.fst).Nodup →
      ((insertAll d0 ps).map Prod.fst).Nodup := by
  induction ps with
  | nil => intro d0 h; exact h
  | cons p rest ih =>
    intro d0 h
    rw [insertAll_cons]
    refine ih _ ?_
    rw [keys_dictInsert]
    by_cases hany : d0.any (fun q => q.1 == p.1) = true
    · rwa [if_pos hany]
    · rw [if_neg hany]
      have hnotin : p.1 ∉ d0.map Prod.fst := fun hm => hany ((any_key_iff d0 p.1).mpr hm)
      simp [List.nodup_append, h, hnotin]

theorem foldl_into_dictStep_some (lines : List String) :
    ∀ d0 : List (String × ℚ),
      lines.foldl into_dictStep (some d0) = (parseLines lines).map (insertAll d0) := by
  induction lines with
  | nil => intro d0; rfl
  | cons l ls ih =>
    intro d0
    rw [List.foldl_cons]
    cases hl : parseLine l with
    | none =>
      have hstep : into_dictStep (some d0) l = none := by simp [into_dictStep, hl]
      rw [hstep, foldl_into_dictStep_none]
      simp [parseLines, hl]
    | some p =>
      have hstep : into_dictStep (some d0) l = some (dictInsert d0 p.1 p.2) := by
        simp [into_dictStep, hl]
      rw [hstep, ih]
      simp only [parseLines, hl, Option.some_bind]
      cases hps : parseLines ls <;> rfl

theorem into_dict_insertAll {lines : List String} {ps d : List (String × ℚ)}
    (hps : parseLines lines = some ps) (hd : into_dict lines = some d) :
    d = insertAll [] ps := by
  have h : into_dict lines = (parseLines lines).map (insertAll []) :=
    foldl_into_dictStep_some lines []
  rw [hd, hps] at h
  exact Option.some_inj.mp h

/-- C9: when one report names the same directory key on several lines, the
parsed dict holds exactly one entry for it (its key list has no
duplicates), and the value looked up is the one of the last such line in
file order (the first hit in the reversed pair list). -/
theorem duplicate_key_last_value_wins (lines : List String) (ps d : List (String × ℚ))
    (k : String) (hps : parseLines lines = some ps) (hd : into_dict lines = some d) :
    (d.map Prod.fst).Nodup ∧
    (d.find? (fun p => p.1 == k)).map Prod.snd =
      (ps.reverse.find? (fun p => p.1 == k)).map Prod.snd := by
  obtain rfl := into_dict_insertAll hps hd
  refine ⟨nodup_keys_insertAll ps [] (by simp), ?_⟩
  rw [find?_insertAll_value]
  cases ps.reverse.find? (fun p => p.1 == k) <;> simp

/-- Witness for C9: key `"a"` appears on lines 1 and 3 with sizes 1 and 3;
the dict has one `"a"` entry with value 3. -/
theorem duplicate_key_last_value_wins_inst :
    (([("a", (3 : ℚ)), ("b", 2)]).map Prod.fst).Nodup ∧
    (([("a", (3 : ℚ)), ("b", 2)]).find? (fun p => p.1 == "a")).map Prod.snd =
      (([("a", (1 : ℚ)), ("b", 2), ("a", 3)]).reverse.find? (fun p => p.1 == "a")).map
        Prod.snd :=
  duplicate_key_last_value_wins ["a 1", "b 2", "a 3"]
    [("a", 1), ("b", 2), ("a", 3)] [("a", 3), ("b", 2)] "a"
    (by with_unfolding_all decide) (by with_unfolding_all decide)

theorem dedupFirst_congr (s1 s2 l : List String) (h : ∀ a, a ∈ s1 ↔ a ∈ s2) :
    dedupFirst s1 l = dedupFirst s2 l := by
  induction l generalizing s1 s2 with
  | nil => rfl
  | cons k ks ih =>
    simp only [dedupFirst]
    by_cases hk : k ∈ s1
    · rw [if_pos hk, if_pos ((h k).mp hk)]
      exact ih s1 s2 h
    · rw [if_neg hk, if_neg (fun hc => hk ((h k).mpr hc))]
      exact congrArg (k :: ·) (ih (k :: s1) (k :: s2) (fun a => by simp [h a]))

theorem keys_insertAll (ps : List (String × ℚ)) :
    ∀ d0 : List (String × ℚ),
      (insertAll d0 ps).map Prod.fst =
        d0.map Prod.fst ++ dedupFirst (d0.map Prod.fst) (ps.map Prod.fst) := by
  induction ps with
  | nil => intro d0; simp [insertAll, dedupFirst]
  | cons p rest ih =>
    intro d0
    rw [insertAll_cons, ih, keys_dictInsert]
    by_cases hany : d0.any (fun q => q.1 == p.1) = true
    · rw [if_pos hany]
      have hmem : p.1 ∈ d0.map Prod.fst := (any_key_iff d0 p.1).mp hany
      simp [dedupFirst, hmem]
    · rw [if_neg hany]
      have hmem : p.1 ∉ d0.map Prod.fst := fun hm => hany ((any_key_iff d0 p.1).mpr hm)
      rw [List.map_cons]
      simp only [dedupFirst]
      rw [if_neg hmem, List.append_assoc, List.singleton_append]
      have hsw : dedupFirst (d0.map Prod.fst ++ [p.1]) (rest.map Prod.fst) =
          dedupFirst (p.1 :: d0.map Prod.fst) (rest.map Prod.fst) :=
        dedupFirst_congr _ _ _ (fun a => by
          simp only [List.mem_append, List.mem_cons, List.not_mem_nil, or_false]
          exact or_comm)
      rw [hsw]

/-- C10 counterexample: with newer lines `"b 5"`, `"a 5"`, `"b 7"`, the
dict keeps `"b"` at its first-insertion position, so the run prints `b`'s
line before `a`'s — not the newer report's line order of last key
occurrences, which would put `a` (line 2) before `b` (line 3). -/
theorem output_order_not_last_occurrence :
    into_dict ["b 5", "a 5", "b 7"] = some [("b", 7), ("a", 5)] ∧
    (runMain ["prog", "o", "n"]
      (fun f => if f = "o" then some [] else some ["b 5", "a 5", "b 7"])).stdout =
      ["b 7.0", "a 5.0"] ∧
    ["b 7.0", "a 5.0"] ≠ ["a 5.0", "b 7.0"] := by
  with_unfolding_all decide

/-- C10 (amended): the program is a pure function of `argv` and the file
contents — equal inputs give identical output — and the output order
follows the newer report's line order of FIRST key occurrences (values
still from the last occurrence), since an insertion-ordered dict keeps an
updated key at its original position. -/
theorem deterministic_first_occurrence_order (argv : List String)
    (fs fs' : String → Option (List String)) (lines : List String)
    (ps d : List (String × ℚ)) (hfs : ∀ f, fs f = fs' f)
    (hps : parseLines lines = some ps) (hd : into_dict lines = some d) :
    runMain argv fs = runMain argv fs' ∧
    d.map Prod.fst = dedupFirst [] (ps.map Prod.fst) := by
  constructor
  · rw [funext hfs]
  · obtain rfl := into_dict_insertAll hps hd
    rw [keys_insertAll]
    rfl

/-- Witness for C10 (amended) at the counterexample's report. -/
theorem deterministic_first_occurrence_order_inst :
    runMain ["p", "o", "n"] (fun _ => none) = runMain ["p", "o", "n"] (fun _ => none) ∧
    ([("b", (7 : ℚ)), ("a", 5)].map Prod.fst) =
      dedupFirst [] ([("b", (5 : ℚ)), ("a", 5), ("b", 7)].map Prod.fst) :=
  deterministic_first_occurrence_order ["p", "o", "n"] (fun _ => none) (fun _ => none)
    ["b 5", "a 5", "b 7"] [("b", 5), ("a", 5), ("b", 7)] [("b", 7), ("a", 5)]
    (fun _ => rfl) (by with_unfolding_all decide) (by with_unfolding_all decide)

end Bdb
